import Mathlib

/-!
# Verification of the project-structure explorer and memo exporter

A shallow embedding of the core logic of `ststst.py`:

* `make_safe_key` (UI-key generation over a process-wide registry),
* `make_unique_key` (canonical annotation-key encoding),
* `extract_structure` (declaration outline of one parsed source file),
* `collect_project_structure` (project scan with folder exclusion),
* `format_memo_data` (reassembling a flat key→memo map into a report).

Python dictionaries are embedded as insertion-ordered association lists,
Python's `str.split` / `str.join` as executable functions over `List Char`,
and exceptions (`SyntaxError` from `ast.parse`, `ValueError` from
`Path.relative_to`) as `Except Unit` results.  Path strings are treated as
the program's data model demands: absolute, canonicalized POSIX strings,
so `Path.resolve()` is the identity on them and `Path.relative_to` is
component-prefix removal.
-/

/-! ## Python string primitives -/

/-- Python `s.split("::")` over the character list of `s`: non-overlapping,
leftmost-first splitting on the two-character delimiter `::`. -/
def splitOnCC : List Char → List (List Char)
  | [] => [[]]
  | [c] => [[c]]
  | c1 :: c2 :: rest =>
    if c1 = ':' && c2 = ':' then [] :: splitOnCC rest
    else
      match splitOnCC (c2 :: rest) with
      | [] => [[c1]]
      | h :: t => (c1 :: h) :: t

/-- Whether the character list contains an occurrence of the delimiter `::`
(two adjacent colons). -/
def hasDD : List Char → Bool
  | [] => false
  | [_] => false
  | c1 :: c2 :: rest => (c1 = ':' && c2 = ':') || hasDD (c2 :: rest)

/-- Whether the character list ends with a colon. -/
def endsColon : List Char → Bool
  | [] => false
  | [c] => c = ':'
  | _ :: c2 :: rest => endsColon (c2 :: rest)

/-- Python `s.split(sep)` for a single-character separator. -/
def splitOnCh (sep : Char) : List Char → List (List Char)
  | [] => [[]]
  | c :: rest =>
    if c = sep then [] :: splitOnCh sep rest
    else
      match splitOnCh sep rest with
      | [] => [[c]]
      | h :: t => (c :: h) :: t

/-- Python `sep.join(parts)`. -/
def pyJoin (sep : String) : List String → String
  | [] => ""
  | s :: ss => ss.foldl (fun acc t => acc ++ sep ++ t) s

/-- Python truthiness of an optional string: `None` and `""` are falsy
(this is the test `if parent_name:` / `and parent` in the source). -/
def pyTruthy : Option String → Bool
  | none => false
  | some s => !(s == "")

/-- ASCII whitespace as stripped by Python `str.strip()` with no
arguments (the source only ever tests whether the stripped text is empty). -/
def pyIsSpace (c : Char) : Bool :=
  c = ' ' || c = '\t' || c = '\n' || c = '\r' || c = '\x0b' || c = '\x0c'

/-- Python `not memo.strip()`: the text is empty or whitespace-only. -/
def pyStripIsEmpty (s : String) : Bool :=
  s.data.all pyIsSpace

/-- Python `key.startswith("memo_")` followed by `key[len("memo_"):]`,
fused: returns the remainder when the prefix is present. -/
def stripMemoMarker : List Char → Option (List Char)
  | 'm' :: 'e' :: 'm' :: 'o' :: '_' :: rest => some rest
  | _ => none

/-- Python code-point comparison of strings (`str.__lt__`), used by
`sorted`. -/
def listLexLt : List Char → List Char → Bool
  | [], [] => false
  | [], _ :: _ => true
  | _ :: _, [] => false
  | a :: as, b :: bs =>
    if a.toNat < b.toNat then true
    else if b.toNat < a.toNat then false
    else listLexLt as bs

/-! ## Insertion-ordered association lists (Python `dict` / `defaultdict`)

`alistSet d k v` is `d[k] = v`: an existing key keeps its position and has
its value replaced; a new key is appended.  `alistUpdate d k dflt f` is the
`defaultdict` access-and-mutate `f(d[k])` with default value `dflt`. -/

def alistSet {β : Type} : List (String × β) → String → β → List (String × β)
  | [], k, v => [(k, v)]
  | (k', w) :: rest, k, v =>
    if k' = k then (k', v) :: rest else (k', w) :: alistSet rest k v

def alistUpdate {β : Type} : List (String × β) → String → β → (β → β) → List (String × β)
  | [], k, dflt, f => [(k, f dflt)]
  | (k', w) :: rest, k, dflt, f =>
    if k' = k then (k', f w) :: rest else (k', w) :: alistUpdate rest k dflt f

def alistGet {β : Type} : List (String × β) → String → Option β
  | [], _ => none
  | (k', w) :: rest, k => if k' = k then some w else alistGet rest k

/-! ## Key Scheme (`make_safe_key`, `make_unique_key`, canonical decode) -/

/-- Python `s.replace(old, new)` for one-character `old` and `new`. -/
def pyReplaceCh (old new : Char) (s : String) : String :=
  String.mk (s.data.map fun c => if c = old then new else c)

/-- The base string of `make_safe_key`:
`"memo_" + "_".join(a.replace("/", "_").replace(" ", "_") for a in args)`. -/
def makeBase (args : List String) : String :=
  "memo_" ++ pyJoin "_" (args.map fun a => pyReplaceCh ' ' '_' (pyReplaceCh '/' '_' a))

/-- `make_safe_key`'s collision loop over an explicit registry.  The global
`used_keys` set is passed in and returned; the stream of `uuid4().hex[:8]`
draws is an explicit list (the loop consumes one draw per collision and is
modelled with that list as fuel, returning `none` if every draw collides).
Mirrors lines 12–19 of the source. -/
def makeSafeKeyLoop (base : String) (used : List String) :
    String → List String → Option (String × List String)
  | key, [] => if key ∈ used then none else some (key, key :: used)
  | key, d :: rest =>
    if key ∈ used then makeSafeKeyLoop base used (base ++ "_" ++ d) rest
    else some (key, key :: used)

/-- `make_safe_key(*args)` given the current `used_keys` registry and the
stream of random suffix draws: returns the chosen key and the new registry. -/
def make_safe_key (used : List String) (args : List String) (draws : List String) :
    Option (String × List String) :=
  makeSafeKeyLoop (makeBase args) used (makeBase args) draws

/-- A sequence of `make_safe_key` calls within one process lifetime,
threading the `used_keys` registry; each call supplies its `args`-derived
base and its suffix draws.  Returns the list of returned keys and the final
registry. -/
def runSafeKeyCalls (used : List String) :
    List (List String × List String) → Option (List String × List String)
  | [] => some ([], used)
  | (args, draws) :: calls =>
    match make_safe_key used args draws with
    | none => none
    | some (k, used') =>
      match runSafeKeyCalls used' calls with
      | none => none
      | some (ks, u) => some (k :: ks, u)

/-- `make_unique_key(file_path, scope_type, scope_name, parent_name=None)`
(lines 22–32).  `str(file_path.resolve())` is the identity here because the
data model fixes paths to be absolute, canonicalized strings.  The unused
local `hashed` of the source is dead code and not modelled. -/
def make_unique_key (filePath scopeType scopeName : String)
    (parentName : Option String := none) : String :=
  let parts :=
    if pyTruthy parentName then [filePath, scopeType, scopeName, parentName.getD ""]
    else [filePath, scopeType, scopeName]
  "memo_" ++ pyJoin "::" parts

/-- Canonical-key decoding exactly as the Report Formatter performs it
(lines 80–89): require the `memo_` marker, split the remainder on `::`,
require at least 3 segments; the first three are (path, scope, name) and
the fourth is the parent only when there are exactly 4 segments. -/
def decodeKey (key : String) : Option (String × String × String × Option String) :=
  match stripMemoMarker key.data with
  | none => none
  | some raw =>
    match splitOnCC raw with
    | p :: k :: n :: rest =>
      some (String.mk p, String.mk k, String.mk n,
        match rest with
        | [q] => some (String.mk q)
        | _ => none)
    | _ => none

/-! ## Structure Extractor (`extract_structure`) -/

/-- Python AST statements, restricted to what `extract_structure` can
distinguish: `ast.FunctionDef`, `ast.AsyncFunctionDef`, `ast.ClassDef`
(each with its body), and any other statement. -/
inductive PyStmt where
  | functionDef (name : String) (body : List PyStmt)
  | asyncFunctionDef (name : String) (body : List PyStmt)
  | classDef (name : String) (body : List PyStmt)
  | other

/-- The extractor's result: `{"classes": {...}, "functions": [...]}`. -/
structure PyStructure where
  classes : List (String × List String)
  functions : List String
deriving DecidableEq

/-- `classes[cls].append(m)` on a `defaultdict(list)`: the bucket is created
at the end on first append, otherwise extended in place. -/
def classBucketAppend : List (String × List String) → String → String → List (String × List String)
  | [], cls, m => [(cls, [m])]
  | (c, ms) :: rest, cls, m =>
    if c = cls then (c, ms ++ [m]) :: rest else (c, ms) :: classBucketAppend rest cls m

/-- The inner loop of `extract_structure` over one class body: every direct
`ast.FunctionDef` child is appended to that class's method bucket; every
other kind of statement (including `ast.AsyncFunctionDef`) is ignored. -/
def extractClassMethods (acc : List (String × List String)) (clsName : String) :
    List PyStmt → List (String × List String)
  | [] => acc
  | .functionDef n _ :: rest =>
    extractClassMethods (classBucketAppend acc clsName n) clsName rest
  | .asyncFunctionDef _ _ :: rest => extractClassMethods acc clsName rest
  | .classDef _ _ :: rest => extractClassMethods acc clsName rest
  | .other :: rest => extractClassMethods acc clsName rest

/-- One step of `extract_structure`'s loop over `ast.iter_child_nodes`:
`ast.ClassDef` is checked first, then `ast.FunctionDef`; anything else
(including `ast.AsyncFunctionDef`) is ignored. -/
def extractStep (st : PyStructure) : PyStmt → PyStructure
  | .classDef n body => { st with classes := extractClassMethods st.classes n body }
  | .functionDef n _ => { st with functions := st.functions ++ [n] }
  | .asyncFunctionDef _ _ => st
  | .other => st

/-- `extract_structure` (lines 35–51) applied to the parsed module body. -/
def extract_structure (tree : List PyStmt) : PyStructure :=
  tree.foldl extractStep ⟨[], []⟩

/-- The name of a direct `ast.FunctionDef` child, if the node is one. -/
def topFnName : PyStmt → Option String
  | .functionDef n _ => some n
  | _ => none

/-- The names of the direct `def` children of a statement list. -/
def directMethods (body : List PyStmt) : List String :=
  body.filterMap topFnName

/-- The methods the claim assigns to class name `c` in a file: the direct
`def` children of every top-level class named `c`, concatenated in source
order. -/
def classMethodsSpec (c : String) : List PyStmt → List String
  | [] => []
  | .classDef n body :: rest =>
    (if n = c then directMethods body else []) ++ classMethodsSpec c rest
  | .functionDef _ _ :: rest => classMethodsSpec c rest
  | .asyncFunctionDef _ _ :: rest => classMethodsSpec c rest
  | .other :: rest => classMethodsSpec c rest

/-- Erase every statement body one level down: used to state that the
extractor never looks inside a function body or below the first level of a
class body. -/
def pruneInner : PyStmt → PyStmt
  | .functionDef n _ => .functionDef n []
  | .asyncFunctionDef n _ => .asyncFunctionDef n []
  | .classDef n _ => .classDef n []
  | .other => .other

/-- Erase all nested declarations: function bodies are emptied and class
bodies keep only the names and kinds of their direct children. -/
def pruneStmt : PyStmt → PyStmt
  | .functionDef n _ => .functionDef n []
  | .asyncFunctionDef n _ => .asyncFunctionDef n []
  | .classDef n body => .classDef n (body.map pruneInner)
  | .other => .other

/-! ## Project Scanner (`collect_project_structure`) -/

/-- One file found by `Path(project_path).rglob("*.py")`: its directory
components relative to the root, its file name, and the outcome of opening
and `ast.parse`-ing it (`.error ()` models a `SyntaxError`). -/
structure PyFile where
  dir : List String
  fname : String
  parsed : Except Unit (List PyStmt)

/-- The scanner's result: folder-relative path → file name →
(structure entry, stored path as the components `root ++ dir ++ [name]`). -/
abbrev Catalog := List (String × List (String × (PyStructure × List String)))

/-- `any(part in exclude_folders for part in py_file.parts)` — the parts of
the full path, root components included, file name last. -/
def excludedFile (root : List String) (excl : List String) (f : PyFile) : Bool :=
  (root ++ f.dir ++ [f.fname]).any fun p => excl.contains p

/-- `str(relative_path.parent)`: the joined directory components, or `"."`
for a file directly under the root. -/
def folderOf (dir : List String) : String :=
  match dir with
  | [] => "."
  | _ => pyJoin "/" dir

/-- `structure[folder][name] = value` on a `defaultdict(dict)`. -/
def catalogInsert (acc : Catalog) (folder fname : String)
    (v : PyStructure × List String) : Catalog :=
  alistUpdate acc folder [] fun inner => alistSet inner fname v

/-- The scan loop of `collect_project_structure` (lines 54–63): skip
excluded files, otherwise parse and insert; a parse failure propagates and
aborts the whole scan. -/
def collectGo (root : List String) (excl : List String) (acc : Catalog) :
    List PyFile → Except Unit Catalog
  | [] => .ok acc
  | f :: rest =>
    if excludedFile root excl f then collectGo root excl acc rest
    else
      match f.parsed with
      | .error e => .error e
      | .ok tree =>
        collectGo root excl
          (catalogInsert acc (folderOf f.dir) f.fname
            (extract_structure tree, root ++ f.dir ++ [f.fname]))
          rest

/-- `collect_project_structure(project_path, exclude_folders)` with the
file system's `rglob` enumeration given as an explicit list. -/
def collect_project_structure (root : List String) (excl : List String)
    (files : List PyFile) : Except Unit Catalog :=
  collectGo root excl [] files

/-- Whether a component-list path is absolute (begins with the empty
component produced by a leading `/`). -/
def isAbsolutePath (p : List String) : Bool :=
  p.head? == some ""

/-! ## Report Formatter (`format_memo_data`) -/

/-- The per-path record of the formatter's grouping tree:
`{"__file_memo__": "", "__functions__": {}, "__classes__": defaultdict(dict)}`. -/
structure FileEntry where
  fileMemo : String
  functions : List (String × String)
  classes : List (String × List (String × String))
deriving DecidableEq

def emptyFileEntry : FileEntry := ⟨"", [], []⟩

/-- The grouping pass of `format_memo_data` for one `(key, memo)` pair
(lines 76–98): skip blank memos and undecodable keys, then store the memo
under the decoded path according to its scope.  Unrecognized scopes (and
`method` without a truthy parent) touch nothing. -/
def processEntry (tree : List (String × FileEntry)) (key memo : String) :
    List (String × FileEntry) :=
  if pyStripIsEmpty memo then tree
  else
    match decodeKey key with
    | none => tree
    | some (path, scope, name, parent) =>
      if scope = "file" then
        alistUpdate tree path emptyFileEntry fun e => { e with fileMemo := memo }
      else if scope = "function" then
        alistUpdate tree path emptyFileEntry fun e =>
          { e with functions := alistSet e.functions name memo }
      else if scope = "class" then
        alistUpdate tree path emptyFileEntry fun e =>
          { e with classes := alistUpdate e.classes name [] fun c =>
              alistSet c "__memo__" memo }
      else if scope = "method" && pyTruthy parent then
        alistUpdate tree path emptyFileEntry fun e =>
          { e with classes := alistUpdate e.classes (parent.getD "") [] fun c =>
              alistSet c name memo }
      else tree

/-- `str(Path(path).relative_to(Path.cwd()))` on canonical path strings:
drop `cwd`'s components from the front of `path`'s components; `none`
models the `ValueError` raised when `path` is not under `cwd`. -/
def relativeTo (path cwd : String) : Option String :=
  let pp := (splitOnCh '/' path.data).map String.mk
  let cp := (splitOnCh '/' cwd.data).map String.mk
  if cp.isPrefixOf pp then
    match pp.drop cp.length with
    | [] => some "."
    | rest => some (pyJoin "/" rest)
  else none

/-- The rendered lines of one class block (lines 108–112): the class line
always carries `" : "` plus the (possibly empty) class memo, then one line
per non-`"__memo__"` entry in insertion order. -/
def renderClass (cls : String) (content : List (String × String)) : List String :=
  ("  [CLASS] " ++ cls ++ " : " ++ ((alistGet content "__memo__").getD "")) ::
    content.filterMap fun mv =>
      if mv.1 = "__memo__" then none
      else some ("    └── def " ++ mv.1 ++ "() : " ++ mv.2)

/-- The rendered lines of one file block (lines 103–113), ending with the
empty separator line. -/
def renderEntry (relPath : String) (e : FileEntry) : List String :=
  ("📄 " ++ relPath) ::
    ((if e.fileMemo = "" then [] else ["  📌 " ++ e.fileMemo])
      ++ e.functions.map (fun fm => "  [FUNC] " ++ fm.1 ++ "() : " ++ fm.2)
      ++ (e.classes.map fun cc => renderClass cc.1 cc.2).flatten
      ++ [""])

/-- Insert one path into a list sorted by Python string comparison
(code-point lexicographic), as `sorted(tree.items())` orders the tree. -/
def insertSorted (x : String × FileEntry) :
    List (String × FileEntry) → List (String × FileEntry)
  | [] => [x]
  | y :: ys =>
    if listLexLt x.1.data y.1.data then x :: y :: ys else y :: insertSorted x ys

/-- `sorted(tree.items())`: sort the grouping tree by path string. -/
def sortTree (t : List (String × FileEntry)) : List (String × FileEntry) :=
  t.foldr insertSorted []

/-- The rendering loop over the sorted tree (lines 100–113): each path is
made relative to the working directory — a path not under it raises, which
aborts the whole report. -/
def renderTree (cwd : String) : List (String × FileEntry) → Except Unit (List String)
  | [] => .ok []
  | (path, e) :: rest =>
    match relativeTo path cwd with
    | none => .error ()
    | some rel =>
      match renderTree cwd rest with
      | .error er => .error er
      | .ok ls => .ok (renderEntry rel e ++ ls)

/-- `format_memo_data(memo_data)` (lines 66–115) with the annotation map as
an insertion-ordered list and the working directory explicit. -/
def format_memo_data (memoData : List (String × String)) (cwd : String) :
    Except Unit String :=
  let tree := memoData.foldl (fun t km => processEntry t km.1 km.2) []
  match renderTree cwd (sortTree tree) with
  | .error e => .error e
  | .ok lines => .ok (pyJoin "\n" lines)

/-! ## General lemmas about the string primitives -/

theorem stringMk_data (s : String) : String.mk s.data = s := by
  cases s
  rfl

theorem splitOnCC_noDD : ∀ cs, hasDD cs = false → splitOnCC cs = [cs]
  | [] => fun _ => rfl
  | [c] => fun _ => rfl
  | c1 :: c2 :: rest => fun h => by
    rw [hasDD, Bool.or_eq_false_iff] at h
    have h2 := splitOnCC_noDD (c2 :: rest) h.2
    simp only [splitOnCC, h.1, h2]
    simp

theorem splitOnCC_append_delim : ∀ xs ys : List Char,
    hasDD xs = false → endsColon xs = false →
    splitOnCC (xs ++ ':' :: ':' :: ys) = xs :: splitOnCC ys
  | [], ys => by
    intro _ _
    simp [splitOnCC]
  | [c], ys => by
    intro _ hec
    rw [endsColon, decide_eq_false_iff_not] at hec
    have hin : splitOnCC (':' :: ':' :: ys) = [] :: splitOnCC ys := by simp [splitOnCC]
    simp only [List.cons_append, List.nil_append, splitOnCC, hin]
    simp [hec]
  | c1 :: c2 :: xs, ys => by
    intro hdd hec
    rw [hasDD, Bool.or_eq_false_iff] at hdd
    rw [endsColon] at hec
    have ih := splitOnCC_append_delim (c2 :: xs) ys hdd.2 hec
    simp only [List.cons_append] at ih ⊢
    simp only [splitOnCC, hdd.1, ih]
    simp

theorem splitOnCC_three (a b c : List Char)
    (ha : hasDD a = false) (hae : endsColon a = false)
    (hb : hasDD b = false) (hbe : endsColon b = false)
    (hc : hasDD c = false) :
    splitOnCC (a ++ ':' :: ':' :: (b ++ ':' :: ':' :: c)) = [a, b, c] := by
  rw [splitOnCC_append_delim a _ ha hae, splitOnCC_append_delim b c hb hbe,
    splitOnCC_noDD c hc]

theorem splitOnCC_four (a b c d : List Char)
    (ha : hasDD a = false) (hae : endsColon a = false)
    (hb : hasDD b = false) (hbe : endsColon b = false)
    (hc : hasDD c = false) (hce : endsColon c = false)
    (hd : hasDD d = false) :
    splitOnCC (a ++ ':' :: ':' :: (b ++ ':' :: ':' :: (c ++ ':' :: ':' :: d)))
      = [a, b, c, d] := by
  rw [splitOnCC_append_delim a _ ha hae, splitOnCC_append_delim b _ hb hbe,
    splitOnCC_append_delim c d hc hce, splitOnCC_noDD d hd]

theorem stripMemoMarker_cons (l : List Char) :
    stripMemoMarker ('m' :: 'e' :: 'm' :: 'o' :: '_' :: l) = some l := rfl

theorem data_dd : ("::" : String).data = [':', ':'] := rfl

theorem make_unique_key_data_none (path kind name : String) :
    (make_unique_key path kind name none).data
      = 'm' :: 'e' :: 'm' :: 'o' :: '_' ::
        (path.data ++ ':' :: ':' :: (kind.data ++ ':' :: ':' :: name.data)) := by
  simp [make_unique_key, pyTruthy, pyJoin, String.data_append, data_dd]

theorem make_unique_key_data_some (path kind name q : String) (hq : q ≠ "") :
    (make_unique_key path kind name (some q)).data
      = 'm' :: 'e' :: 'm' :: 'o' :: '_' ::
        (path.data ++ ':' :: ':' ::
          (kind.data ++ ':' :: ':' :: (name.data ++ ':' :: ':' :: q.data))) := by
  have ht : pyTruthy (some q) = true := by simp [pyTruthy, hq]
  simp [make_unique_key, ht, pyJoin, String.data_append, data_dd]

/-- C1.  The claim as frozen is falsified by a parent that is the empty
string: every component (`"/a"`, `"method"`, `"m"`, `""`) is free of the
delimiter sequence `::`, yet `make_unique_key` drops a falsy
(`if parent_name:`) parent, so decoding yields no parent at all. -/
theorem c1_round_trip_counterexample :
    (hasDD "/a".data = false ∧ hasDD "method".data = false ∧
      hasDD "m".data = false ∧ hasDD "".data = false) ∧
    decodeKey (make_unique_key "/a" "method" "m" (some "")) ≠
      some ("/a", "method", "m", some "") := by
  constructor
  · decide
  · decide

/-- C1 (amended).  Round-trip of the canonical key scheme: decoding the key
produced by `make_unique_key(path, kind, name, parent)` — stripping the
`memo_` marker and splitting on `::` as the formatter does — yields exactly
`(path, kind, name, parent)`, provided every component is free of the
delimiter sequence `::`, no component followed by another component ends
with `:` (a trailing colon would fuse with the delimiter), and the parent,
when present, is nonempty (an empty parent is falsy and is silently
dropped by the encoder). -/
theorem c1_round_trip_amended (path kind name : String) (parent : Option String)
    (hp : hasDD path.data = false) (hpe : endsColon path.data = false)
    (hk : hasDD kind.data = false) (hke : endsColon kind.data = false)
    (hn : hasDD name.data = false)
    (hne : parent.isSome → endsColon name.data = false)
    (hq : ∀ q, parent = some q → hasDD q.data = false ∧ q ≠ "") :
    decodeKey (make_unique_key path kind name parent)
      = some (path, kind, name, parent) := by
  cases parent with
  | none =>
    rw [decodeKey, make_unique_key_data_none]
    simp only [stripMemoMarker_cons,
      splitOnCC_three path.data kind.data name.data hp hpe hk hke hn]
  | some q =>
    obtain ⟨hqd, hqe⟩ := hq q rfl
    rw [decodeKey, make_unique_key_data_some path kind name q hqe]
    simp only [stripMemoMarker_cons,
      splitOnCC_four path.data kind.data name.data q.data hp hpe hk hke hn
        (hne rfl) hqd]

/-- C1 witness: the amended round-trip at a concrete method key. -/
theorem c1_round_trip_amended_witness :
    decodeKey (make_unique_key "/proj/a.py" "method" "m" (some "Bar"))
      = some ("/proj/a.py", "method", "m", some "Bar") :=
  c1_round_trip_amended "/proj/a.py" "method" "m" (some "Bar")
    (by decide) (by decide) (by decide) (by decide) (by decide)
    (fun _ => by decide) (fun q hq => by cases hq; exact ⟨by decide, by decide⟩)

/-! ## Scenario B and the filtering rule of the Report Formatter -/

/-- C2.  The claim as frozen is falsified on its own scenario: the class
line the formatter emits is `"  [CLASS] Bar : "` — the formatter always
appends `" : "` plus the (here empty) class memo, leaving a trailing
space — whereas the claim states the line `"  [CLASS] Bar :"` with no
trailing space.  The remaining lines and the blank separator match. -/
theorem c2_scenario_b_counterexample :
    format_memo_data
        [("memo_/proj/pkg/a.py::method::m::Bar", "does x"),
         ("memo_/proj/pkg/a.py::file::a.py", "top memo")] "/proj"
      ≠ .ok "📄 pkg/a.py\n  📌 top memo\n  [CLASS] Bar :\n    └── def m() : does x\n" := by
  intro h
  have h' : ("📄 pkg/a.py\n  📌 top memo\n  [CLASS] Bar : \n    └── def m() : does x\n"
      : String)
      = "📄 pkg/a.py\n  📌 top memo\n  [CLASS] Bar :\n    └── def m() : does x\n" :=
    Except.ok.inj ((rfl : format_memo_data
        [("memo_/proj/pkg/a.py::method::m::Bar", "does x"),
         ("memo_/proj/pkg/a.py::file::a.py", "top memo")] "/proj"
      = .ok "📄 pkg/a.py\n  📌 top memo\n  [CLASS] Bar : \n    └── def m() : does x\n"
      ).symm.trans h)
  exact absurd h' (by decide)

/-- C2 (amended).  Scenario B: with the annotation map holding
`memo_/proj/pkg/a.py::method::m::Bar ↦ "does x"` and
`memo_/proj/pkg/a.py::file::a.py ↦ "top memo"` and working directory
`/proj`, the formatter emits exactly the block
`📄 pkg/a.py` / `  📌 top memo` / `  [CLASS] Bar : ` (with a trailing
space after the colon, since the class line always carries `" : "` plus
the — here empty — class memo) / `    └── def m() : does x`, each on its
own line, followed by the blank file separator. -/
theorem c2_scenario_b_amended :
    format_memo_data
        [("memo_/proj/pkg/a.py::method::m::Bar", "does x"),
         ("memo_/proj/pkg/a.py::file::a.py", "top memo")] "/proj"
      = .ok "📄 pkg/a.py\n  📌 top memo\n  [CLASS] Bar : \n    └── def m() : does x\n" :=
  rfl

/-- A `(key, memo)` pair that the formatter's filter drops leaves the
grouping tree untouched. -/
theorem processEntry_skip (t : List (String × FileEntry)) (key memo : String)
    (h : pyStripIsEmpty memo = true ∨ decodeKey key = none) :
    processEntry t key memo = t := by
  rcases h with h | h
  · simp [processEntry, h]
  · rw [processEntry]
    split
    · rfl
    · rw [h]

/-- C3.  Formatter filtering: a `(key, text)` pair whose text is empty or
whitespace-only, or whose key lacks the `memo_` marker, or whose key
splits into fewer than 3 segments, contributes nothing to the report: the
formatter's output on any annotation map containing the pair equals its
output with the pair removed (in particular the pair produces no line and
raises no error). -/
theorem c3_formatter_filtering (l1 l2 : List (String × String))
    (key memo cwd : String)
    (h : pyStripIsEmpty memo = true ∨ decodeKey key = none) :
    format_memo_data (l1 ++ (key, memo) :: l2) cwd
      = format_memo_data (l1 ++ l2) cwd := by
  rw [format_memo_data, format_memo_data, List.foldl_append, List.foldl_append,
    List.foldl_cons]
  rw [processEntry_skip _ key memo h]

/-- C3 witness: a whitespace-only memo on a well-formed key is dropped. -/
theorem c3_formatter_filtering_witness :
    (pyStripIsEmpty "  " = true ∨ decodeKey "memo_/p::file::a" = none) ∧
    format_memo_data [("memo_/p::file::a", "  ")] "/" = format_memo_data [] "/" :=
  ⟨Or.inl (by decide),
    c3_formatter_filtering [] [] "memo_/p::file::a" "  " "/" (Or.inl (by decide))⟩

/-! ## PathError aborts report generation -/

/-- The scopes the grouping pass stores (with `method` requiring a truthy
parent, mirroring `elif scope == "method" and parent:`). -/
def scopeRecognized (scope : String) (parent : Option String) : Prop :=
  scope = "file" ∨ scope = "function" ∨ scope = "class" ∨
    (scope = "method" ∧ pyTruthy parent = true)

theorem alistUpdate_mem_keys {β : Type} (d : List (String × β)) (k : String)
    (dflt : β) (f : β → β) (x : String) (hx : x ∈ d.map Prod.fst) :
    x ∈ (alistUpdate d k dflt f).map Prod.fst := by
  induction d with
  | nil => simp at hx
  | cons kw rest ih =>
    obtain ⟨k', w⟩ := kw
    rw [alistUpdate]
    split
    · simpa using hx
    · simp only [List.map_cons, List.mem_cons] at hx ⊢
      rcases hx with hx | hx
      · exact Or.inl hx
      · exact Or.inr (ih hx)

theorem alistUpdate_key_mem {β : Type} (d : List (String × β)) (k : String)
    (dflt : β) (f : β → β) :
    k ∈ (alistUpdate d k dflt f).map Prod.fst := by
  induction d with
  | nil => simp [alistUpdate]
  | cons kw rest ih =>
    obtain ⟨k', w⟩ := kw
    rw [alistUpdate]
    split
    · simp_all
    · simpa using Or.inr ih

theorem processEntry_keys_mono (t : List (String × FileEntry)) (key memo x : String)
    (hx : x ∈ t.map Prod.fst) :
    x ∈ (processEntry t key memo).map Prod.fst := by
  rw [processEntry]
  split
  · exact hx
  · split
    · exact hx
    · split
      · exact alistUpdate_mem_keys _ _ _ _ _ hx
      · split
        · exact alistUpdate_mem_keys _ _ _ _ _ hx
        · split
          · exact alistUpdate_mem_keys _ _ _ _ _ hx
          · split
            · exact alistUpdate_mem_keys _ _ _ _ _ hx
            · exact hx

theorem processEntry_adds_path (t : List (String × FileEntry))
    (key memo path scope name : String) (parent : Option String)
    (htext : pyStripIsEmpty memo = false)
    (hdec : decodeKey key = some (path, scope, name, parent))
    (hscope : scopeRecognized scope parent) :
    path ∈ (processEntry t key memo).map Prod.fst := by
  rw [processEntry, if_neg (by simp [htext]), hdec]
  rcases hscope with hs | hs | hs | ⟨hs, hpar⟩ <;> subst hs
  · exact alistUpdate_key_mem _ _ _ _
  · exact alistUpdate_key_mem _ _ _ _
  · exact alistUpdate_key_mem _ _ _ _
  · simp only [hpar]
    exact alistUpdate_key_mem _ _ _ _

theorem foldl_processEntry_keys_mono (l : List (String × String))
    (t : List (String × FileEntry)) (x : String) (hx : x ∈ t.map Prod.fst) :
    x ∈ (l.foldl (fun t km => processEntry t km.1 km.2) t).map Prod.fst := by
  induction l generalizing t with
  | nil => exact hx
  | cons km rest ih => exact ih _ (processEntry_keys_mono t km.1 km.2 x hx)

theorem foldl_processEntry_adds (l : List (String × String))
    (t : List (String × FileEntry))
    (key memo path scope name : String) (parent : Option String)
    (hmem : (key, memo) ∈ l)
    (htext : pyStripIsEmpty memo = false)
    (hdec : decodeKey key = some (path, scope, name, parent))
    (hscope : scopeRecognized scope parent) :
    path ∈ (l.foldl (fun t km => processEntry t km.1 km.2) t).map Prod.fst := by
  induction l generalizing t with
  | nil => simp at hmem
  | cons km rest ih =>
    rcases List.mem_cons.mp hmem with hkm | hkm
    · cases hkm
      exact foldl_processEntry_keys_mono rest _ path
        (processEntry_adds_path t key memo path scope name parent htext hdec hscope)
    · exact ih _ hkm

theorem insertSorted_mem_keys (x : String × FileEntry)
    (l : List (String × FileEntry)) (y : String)
    (hy : y ∈ l.map Prod.fst ∨ y = x.1) :
    y ∈ (insertSorted x l).map Prod.fst := by
  induction l with
  | nil =>
    rcases hy with hy | hy
    · simp at hy
    · simp [insertSorted, hy]
  | cons z zs ih =>
    rw [insertSorted]
    split
    · rcases hy with hy | hy
      · simp only [List.map_cons, List.mem_cons] at hy ⊢
        exact Or.inr hy
      · simp [hy]
    · simp only [List.map_cons, List.mem_cons] at hy ⊢
      rcases hy with hy | hy
      · rcases hy with hy | hy
        · exact Or.inl hy
        · exact Or.inr (ih (Or.inl hy))
      · exact Or.inr (ih (Or.inr hy))

theorem sortTree_mem_keys (t : List (String × FileEntry)) (y : String)
    (hy : y ∈ t.map Prod.fst) :
    y ∈ (sortTree t).map Prod.fst := by
  induction t with
  | nil => simp at hy
  | cons z zs ih =>
    simp only [List.map_cons, List.mem_cons] at hy
    rw [sortTree, List.foldr_cons]
    rcases hy with hy | hy
    · exact insertSorted_mem_keys z _ y (Or.inr hy)
    · exact insertSorted_mem_keys z _ y (Or.inl (ih hy))

theorem renderTree_error_of_mem (cwd : String) (t : List (String × FileEntry))
    (p : String) (hp : p ∈ t.map Prod.fst) (hrel : relativeTo p cwd = none) :
    renderTree cwd t = .error () := by
  induction t with
  | nil => simp at hp
  | cons qe rest ih =>
    obtain ⟨q, e⟩ := qe
    simp only [List.map_cons, List.mem_cons] at hp
    rw [renderTree]
    cases hq : relativeTo q cwd with
    | none => rfl
    | some rel =>
      have hprest : p ∈ rest.map Prod.fst := by
        rcases hp with hp | hp
        · exact absurd hq (by rw [hp] at hrel; simp [hrel])
        · exact hp
      rw [ih hprest]

/-- C4.  If the annotation map contains a surviving entry — non-blank
text, decodable key (marker plus at least 3 segments), recognized scope —
whose stored path is not under the current working directory, then
`format_memo_data` fails with the path error and produces no report at
all: generation is aborted entirely, never partially. -/
theorem c4_path_error_aborts (memoData : List (String × String))
    (cwd key memo path scope name : String) (parent : Option String)
    (hmem : (key, memo) ∈ memoData)
    (htext : pyStripIsEmpty memo = false)
    (hdec : decodeKey key = some (path, scope, name, parent))
    (hscope : scopeRecognized scope parent)
    (hpath : relativeTo path cwd = none) :
    format_memo_data memoData cwd = .error () := by
  rw [format_memo_data]
  rw [renderTree_error_of_mem cwd _ path
    (sortTree_mem_keys _ path
      (foldl_processEntry_adds memoData [] key memo path scope name parent
        hmem htext hdec hscope))
    hpath]

/-- C4 witness: a file memo stored under `/other` cannot be rendered
relative to `/proj`, so the whole report is aborted. -/
theorem c4_path_error_aborts_witness :
    format_memo_data [("memo_/other/x.py::file::x", "hi")] "/proj" = .error () :=
  c4_path_error_aborts [("memo_/other/x.py::file::x", "hi")] "/proj"
    "memo_/other/x.py::file::x" "hi" "/other/x.py" "file" "x" none
    (by simp) (by decide) (by decide) (Or.inl rfl) (by decide)

/-! ## Scanner and extractor claims -/

theorem collectGo_error_of_mem (root excl : List String) (f : PyFile)
    (hex : excludedFile root excl f = false) (hparse : f.parsed = .error ()) :
    ∀ files : List PyFile, f ∈ files → ∀ acc : Catalog,
      collectGo root excl acc files = .error () := by
  intro files
  induction files with
  | nil => intro h; simp at h
  | cons g rest ih =>
    intro hm acc
    rw [collectGo]
    rcases List.mem_cons.mp hm with hg | hg
    · subst hg
      rw [if_neg (by simp [hex]), hparse]
    · by_cases hge : excludedFile root excl g = true
      · rw [if_pos hge]
        exact ih hg acc
      · rw [if_neg hge]
        cases hp : g.parsed with
        | error e => rfl
        | ok tree => exact ih hg _

/-- C5.  If any non-excluded source file under the root fails to parse,
`collect_project_structure` fails with the parse error and produces no
catalog at all: one failing file aborts the whole scan, with no per-file
isolation and no partial or best-effort structure for it or for the other
files. -/
theorem c5_parse_error_aborts (root excl : List String) (files : List PyFile)
    (f : PyFile) (hmem : f ∈ files)
    (hex : excludedFile root excl f = false)
    (hparse : f.parsed = .error ()) :
    collect_project_structure root excl files = .error () :=
  collectGo_error_of_mem root excl f hex hparse files hmem []

/-- C5 witness: one unparsable file under an absolute root aborts the scan
even though a healthy file precedes it. -/
theorem c5_parse_error_aborts_witness :
    collect_project_structure [""] ["tests"]
        [⟨[], "ok.py", .ok []⟩, ⟨["pkg"], "bad.py", .error ()⟩] = .error () :=
  c5_parse_error_aborts [""] ["tests"]
    [⟨[], "ok.py", .ok []⟩, ⟨["pkg"], "bad.py", .error ()⟩]
    ⟨["pkg"], "bad.py", .error ()⟩ (by simp) (by decide) rfl

theorem foldl_extractStep_functions :
    ∀ (tree : List PyStmt) (st : PyStructure),
      (tree.foldl extractStep st).functions = st.functions ++ tree.filterMap topFnName
  | [], st => by simp
  | node :: rest, st => by
    rw [List.foldl_cons, foldl_extractStep_functions rest]
    cases node <;> simp [extractStep, topFnName]

theorem extractClassMethods_map_pruneInner (clsName : String) :
    ∀ (body : List PyStmt) (acc : List (String × List String)),
      extractClassMethods acc clsName (body.map pruneInner)
        = extractClassMethods acc clsName body
  | [], acc => rfl
  | node :: rest, acc => by
    cases node <;>
      simp [pruneInner, extractClassMethods,
        extractClassMethods_map_pruneInner clsName rest]

theorem extractStep_prune (st : PyStructure) (node : PyStmt) :
    extractStep st (pruneStmt node) = extractStep st node := by
  cases node <;>
    simp [pruneStmt, extractStep, extractClassMethods_map_pruneInner]

theorem extract_structure_prune (tree : List PyStmt) :
    extract_structure (tree.map pruneStmt) = extract_structure tree := by
  rw [extract_structure, extract_structure, List.foldl_map]
  congr 1
  funext st node
  exact extractStep_prune st node

theorem alistGet_classBucketAppend :
    ∀ (acc : List (String × List String)) (cls m c : String),
      alistGet (classBucketAppend acc cls m) c
        = if c = cls then some ((alistGet acc c).getD [] ++ [m])
          else alistGet acc c
  | [], cls, m, c => by
    by_cases h : c = cls
    · subst h
      simp [classBucketAppend, alistGet]
    · simp [classBucketAppend, alistGet, h, Ne.symm h]
  | (k', w) :: rest, cls, m, c => by
    by_cases hk : k' = cls
    · subst hk
      by_cases hc : k' = c
      · subst hc
        simp [classBucketAppend, alistGet]
      · simp [classBucketAppend, alistGet, hc, Ne.symm hc]
    · by_cases hc : k' = c
      · subst hc
        simp [classBucketAppend, alistGet, hk, Ne.symm hk]
      · simp [classBucketAppend, alistGet, hk, hc,
          alistGet_classBucketAppend rest cls m c]

theorem alistGet_extractClassMethods (clsName : String) :
    ∀ (body : List PyStmt) (acc : List (String × List String)) (c : String),
      alistGet (extractClassMethods acc clsName body) c
        = if c = clsName then
            (match alistGet acc c with
             | some v => some (v ++ directMethods body)
             | none =>
               if directMethods body = [] then none
               else some (directMethods body))
          else alistGet acc c
  | [], acc, c => by
    by_cases h : c = clsName
    · subst h
      cases hv : alistGet acc c <;>
        simp [extractClassMethods, directMethods, hv]
    · simp [extractClassMethods, h]
  | .functionDef n b :: rest, acc, c => by
    rw [extractClassMethods,
      alistGet_extractClassMethods clsName rest (classBucketAppend acc clsName n) c]
    by_cases h : c = clsName
    · subst h
      rw [if_pos rfl, if_pos rfl, alistGet_classBucketAppend acc c n c, if_pos rfl]
      cases hv : alistGet acc c <;>
        simp [directMethods, topFnName, List.filterMap_cons]
    · rw [if_neg h, if_neg h, alistGet_classBucketAppend acc clsName n c, if_neg h]
  | .asyncFunctionDef n b :: rest, acc, c => by
    rw [extractClassMethods, alistGet_extractClassMethods clsName rest acc c]
    simp [directMethods, topFnName, List.filterMap_cons]
  | .classDef n b :: rest, acc, c => by
    rw [extractClassMethods, alistGet_extractClassMethods clsName rest acc c]
    simp [directMethods, topFnName, List.filterMap_cons]
  | .other :: rest, acc, c => by
    rw [extractClassMethods, alistGet_extractClassMethods clsName rest acc c]
    simp [directMethods, topFnName, List.filterMap_cons]

theorem alistGet_extract_classes :
    ∀ (tree : List PyStmt) (st : PyStructure) (c : String),
      alistGet (tree.foldl extractStep st).classes c
        = match alistGet st.classes c with
          | some v => some (v ++ classMethodsSpec c tree)
          | none =>
            if classMethodsSpec c tree = [] then none
            else some (classMethodsSpec c tree)
  | [], st, c => by
    cases hv : alistGet st.classes c <;> simp [classMethodsSpec, hv]
  | .classDef n body :: rest, st, c => by
    rw [List.foldl_cons, alistGet_extract_classes rest _ c]
    have hstep : (extractStep st (.classDef n body)).classes
        = extractClassMethods st.classes n body := rfl
    rw [hstep, alistGet_extractClassMethods n body st.classes c, classMethodsSpec]
    by_cases h : c = n
    · subst h
      rw [if_pos rfl, if_pos rfl]
      cases hv : alistGet st.classes c
      · by_cases hdm : directMethods body = []
        · simp [hdm]
        · simp [hdm, List.append_eq_nil]
      · simp [List.append_assoc]
    · rw [if_neg h, if_neg (fun hh : n = c => h hh.symm)]
      simp
  | .functionDef n b :: rest, st, c => by
    rw [List.foldl_cons, alistGet_extract_classes rest _ c]
    rfl
  | .asyncFunctionDef n b :: rest, st, c => by
    rw [List.foldl_cons, alistGet_extract_classes rest _ c]
    rfl
  | .other :: rest, st, c => by
    rw [List.foldl_cons, alistGet_extract_classes rest _ c]
    rfl

/-- C6.  The Structure Extractor captures exactly the direct children:
(1) erasing everything nested below the direct children (function bodies,
and everything below the first level of a class body) never changes the
output, so a function inside another function, or a class inside a
function, is invisible; (2) for every file, the functions list is exactly
the names of the direct `def` children in source order; (3) for every
file and every class name, the class's entry in the output is exactly the
direct `def` children of the top-level classes bearing that name,
concatenated in source order — absent when there are none, and never
containing a method of a differently named class; and (4) the file of
Scenario A — `def foo()` (here even with a nested function and class in
its body) plus `class Bar:` with method `m` — yields
`{"classes": {"Bar": ["m"]}, "functions": ["foo"]}`. -/
theorem c6_direct_children_only :
    (∀ tree : List PyStmt,
      extract_structure (tree.map pruneStmt) = extract_structure tree)
    ∧ (∀ tree : List PyStmt,
      (extract_structure tree).functions = tree.filterMap topFnName)
    ∧ (∀ (tree : List PyStmt) (c : String),
      alistGet (extract_structure tree).classes c
        = (if classMethodsSpec c tree = [] then none
           else some (classMethodsSpec c tree)))
    ∧ extract_structure
        [.functionDef "foo" [.functionDef "inner" [], .classDef "Hidden" []],
         .classDef "Bar" [.functionDef "m" []]]
        = ⟨[("Bar", ["m"])], ["foo"]⟩ :=
  ⟨extract_structure_prune,
   fun tree => foldl_extractStep_functions tree ⟨[], []⟩,
   fun tree c => alistGet_extract_classes tree ⟨[], []⟩ c,
   rfl⟩

theorem extractStep_async (st : PyStructure) (n : String) (body : List PyStmt) :
    extractStep st (.asyncFunctionDef n body) = st := rfl

theorem extractClassMethods_middle_async (clsName : String)
    (cpre : List PyStmt) (acc : List (String × List String))
    (cpost : List PyStmt) (n : String) (body : List PyStmt) :
    extractClassMethods acc clsName (cpre ++ .asyncFunctionDef n body :: cpost)
      = extractClassMethods acc clsName (cpre ++ cpost) := by
  induction cpre generalizing acc with
  | nil => simp [extractClassMethods]
  | cons node rest ih =>
    cases node <;> simp [extractClassMethods, ih]

/-- C10.  Only plain `def` children are recognized (`ast.FunctionDef`): an
`async def` at module level, or directly inside a class body, never
appears in the extractor's output — removing it from the tree leaves the
output unchanged. -/
theorem c10_async_def_invisible :
    (∀ (pre post : List PyStmt) (n : String) (body : List PyStmt),
      extract_structure (pre ++ .asyncFunctionDef n body :: post)
        = extract_structure (pre ++ post))
    ∧ (∀ (pre post : List PyStmt) (cn : String) (cpre cpost : List PyStmt)
        (n : String) (body : List PyStmt),
      extract_structure
          (pre ++ .classDef cn (cpre ++ .asyncFunctionDef n body :: cpost) :: post)
        = extract_structure (pre ++ .classDef cn (cpre ++ cpost) :: post)) := by
  constructor
  · intro pre post n body
    rw [extract_structure, extract_structure, List.foldl_append,
      List.foldl_append, List.foldl_cons, extractStep_async]
  · intro pre post cn cpre cpost n body
    rw [extract_structure, extract_structure, List.foldl_append,
      List.foldl_append, List.foldl_cons, List.foldl_cons]
    have h : extractStep (pre.foldl extractStep ⟨[], []⟩)
          (.classDef cn (cpre ++ .asyncFunctionDef n body :: cpost))
        = extractStep (pre.foldl extractStep ⟨[], []⟩)
          (.classDef cn (cpre ++ cpost)) := by
      rw [extractStep, extractStep, extractClassMethods_middle_async]
    rw [h]

/-- C7.  Exclusion: a file whose path contains an excluded folder-name
segment at any depth never appears anywhere in the scanner's output — it
is neither parsed nor grouped: the scan result on any file list containing
it equals the result with the file removed. -/
theorem c7_exclusion (root excl : List String) (l1 l2 : List PyFile) (f : PyFile)
    (h : ∃ seg ∈ root ++ f.dir, seg ∈ excl) :
    collect_project_structure root excl (l1 ++ f :: l2)
      = collect_project_structure root excl (l1 ++ l2) := by
  have hex : excludedFile root excl f = true := by
    obtain ⟨seg, hseg, hin⟩ := h
    rw [excludedFile]
    apply List.any_eq_true.mpr
    refine ⟨seg, ?_, by simpa using hin⟩
    simp only [List.append_assoc, List.mem_append] at hseg ⊢
    rcases hseg with hs | hs
    · exact Or.inl hs
    · exact Or.inr (Or.inl hs)
  rw [collect_project_structure, collect_project_structure]
  suffices hmain : ∀ acc, collectGo root excl acc (l1 ++ f :: l2)
      = collectGo root excl acc (l1 ++ l2) from hmain []
  induction l1 with
  | nil =>
    intro acc
    simp only [List.nil_append]
    rw [collectGo, if_pos hex]
  | cons g rest ih =>
    intro acc
    simp only [List.cons_append]
    by_cases hge : excludedFile root excl g = true
    · rw [collectGo, collectGo, if_pos hge, if_pos hge]
      exact ih _
    · rw [collectGo, collectGo, if_neg hge, if_neg hge]
      cases hp : g.parsed with
      | error e => rfl
      | ok tree => exact ih _

/-- C7 witness: a file inside an excluded `tests` folder is skipped. -/
theorem c7_exclusion_witness :
    (∃ seg ∈ ([""] ++ ["tests"] : List String), seg ∈ (["tests"] : List String)) ∧
    collect_project_structure [""] ["tests"]
        ([] ++ (⟨["tests"], "t.py", .ok []⟩ : PyFile) :: [])
      = collect_project_structure [""] ["tests"] ([] ++ []) :=
  ⟨⟨"tests", by simp, by simp⟩,
    c7_exclusion [""] ["tests"] [] [] ⟨["tests"], "t.py", .ok []⟩
      ⟨"tests", by simp, by simp⟩⟩

/-! ## Shape of the scanner's output -/

theorem alistSet_mem {β : Type} :
    ∀ (d : List (String × β)) (k : String) (v : β) (a : String) (b : β),
      (a, b) ∈ alistSet d k v → (a, b) ∈ d ∨ (a, b) = (k, v)
  | [], k, v, a, b => by
    intro h
    simp [alistSet] at h
    simp [h]
  | (k', w) :: rest, k, v, a, b => by
    intro h
    rw [alistSet] at h
    by_cases hk : k' = k
    · rw [if_pos hk] at h
      rcases List.mem_cons.mp h with h | h
      · right; rw [h, hk]
      · left; exact List.mem_cons_of_mem _ h
    · rw [if_neg hk] at h
      rcases List.mem_cons.mp h with h | h
      · left; exact h ▸ List.mem_cons_self _ _
      · rcases alistSet_mem rest k v a b h with h | h
        · left; exact List.mem_cons_of_mem _ h
        · right; exact h

theorem alistUpdate_mem {β : Type} :
    ∀ (d : List (String × β)) (k : String) (dflt : β) (f : β → β)
      (a : String) (b : β),
      (a, b) ∈ alistUpdate d k dflt f →
      (a, b) ∈ d ∨ (a = k ∧ (b = f dflt ∨ ∃ w, (k, w) ∈ d ∧ b = f w))
  | [], k, dflt, f, a, b => by
    intro h
    simp [alistUpdate] at h
    exact Or.inr ⟨h.1, Or.inl h.2⟩
  | (k', w) :: rest, k, dflt, f, a, b => by
    intro h
    rw [alistUpdate] at h
    by_cases hk : k' = k
    · rw [if_pos hk] at h
      rcases List.mem_cons.mp h with h | h
      · rw [Prod.mk.injEq] at h
        exact Or.inr ⟨h.1.trans hk, Or.inr ⟨w, by simp [← hk], h.2⟩⟩
      · left; exact List.mem_cons_of_mem _ h
    · rw [if_neg hk] at h
      rcases List.mem_cons.mp h with h | h
      · left; exact h ▸ List.mem_cons_self _ _
      · rcases alistUpdate_mem rest k dflt f a b h with h | ⟨h1, h2⟩
        · left; exact List.mem_cons_of_mem _ h
        · refine Or.inr ⟨h1, ?_⟩
          rcases h2 with h2 | ⟨w', hw', h2⟩
          · exact Or.inl h2
          · exact Or.inr ⟨w', List.mem_cons_of_mem _ hw', h2⟩

/-- Every entry of the catalog was recorded from an actual file of the
enumeration: its inner key is the file's name, its outer key the file's
folder-relative directory, its stored path the root joined with the file's
relative path, and its structure entry the extractor's output on the
file's parse tree. -/
def catalogOK (root : List String) (files : List PyFile) (cat : Catalog) : Prop :=
  ∀ folder inner, (folder, inner) ∈ cat →
    ∀ fname v, (fname, v) ∈ inner →
      ∃ f ∈ files, f.fname = fname ∧ folder = folderOf f.dir ∧
        v.2 = root ++ f.dir ++ [f.fname] ∧
        ∃ t, f.parsed = .ok t ∧ v.1 = extract_structure t

theorem catalogInsert_ok (root : List String) (files : List PyFile)
    (acc : Catalog) (hacc : catalogOK root files acc)
    (f : PyFile) (hf : f ∈ files) (tree : List PyStmt)
    (hparse : f.parsed = .ok tree) :
    catalogOK root files
      (catalogInsert acc (folderOf f.dir) f.fname
        (extract_structure tree, root ++ f.dir ++ [f.fname])) := by
  intro folder inner hmem fname v hv
  rcases alistUpdate_mem acc (folderOf f.dir) [] _ folder inner hmem with
    hmem | ⟨hfold, hinner⟩
  · exact hacc folder inner hmem fname v hv
  · rcases hinner with hinner | ⟨w, hw, hinner⟩
    · subst hinner
      rcases alistSet_mem [] f.fname _ fname v hv with hv | hv
      · simp at hv
      · rw [Prod.mk.injEq] at hv
        exact ⟨f, hf, hv.1.symm, hfold, by rw [hv.2], tree, hparse, by rw [hv.2]⟩
    · subst hinner
      rcases alistSet_mem w f.fname _ fname v hv with hv | hv
      · obtain ⟨g, hg, h1, h2, h3, h4⟩ :=
          hacc (folderOf f.dir) w hw fname v hv
        exact ⟨g, hg, h1, hfold.trans h2, h3, h4⟩
      · rw [Prod.mk.injEq] at hv
        exact ⟨f, hf, hv.1.symm, hfold, by rw [hv.2], tree, hparse, by rw [hv.2]⟩

theorem collectGo_shape (root excl : List String) (files : List PyFile) :
    ∀ (rest : List PyFile) (acc : Catalog) (out : Catalog),
      (∀ g ∈ rest, g ∈ files) →
      catalogOK root files acc →
      collectGo root excl acc rest = .ok out →
      catalogOK root files out
  | [], acc, out => by
    intro _ hacc h
    rw [collectGo] at h
    cases h
    exact hacc
  | g :: rest, acc, out => by
    intro hsub hacc h
    rw [collectGo] at h
    by_cases hge : excludedFile root excl g = true
    · rw [if_pos hge] at h
      exact collectGo_shape root excl files rest acc out
        (fun x hx => hsub x (List.mem_cons_of_mem _ hx)) hacc h
    · rw [if_neg hge] at h
      cases hp : g.parsed with
      | error e => rw [hp] at h; cases h
      | ok tree =>
        rw [hp] at h
        exact collectGo_shape root excl files rest _ out
          (fun x hx => hsub x (List.mem_cons_of_mem _ hx))
          (catalogInsert_ok root files acc hacc g
            (hsub g (List.mem_cons_self _ _)) tree hp) h

/-- C8.  The claim as frozen is falsified by a relative root: the scanner
stores `py_file` exactly as `rglob` yields it — the root joined with the
file's relative path — with no `resolve()` call, so for the root `pkg`
the stored path of `pkg/a.py` is the relative, uncanonicalized
`pkg/a.py`, not an absolute canonicalized path. -/
theorem c8_output_shape_counterexample :
    collect_project_structure ["pkg"] [] [⟨[], "a.py", .ok []⟩]
      = .ok [(".", [("a.py", (⟨[], []⟩, ["pkg", "a.py"]))])]
    ∧ isAbsolutePath ["pkg", "a.py"] = false :=
  ⟨rfl, rfl⟩

/-- C8 (amended).  Scanner output shape: for every root directory and
exclusion set, every entry of `collect_project_structure`'s result maps a
folder-relative path and a file name to a pair whose second component is
the path of that file as enumerated — the root joined with the file's
relative path (absolute and canonical only insofar as the given root is;
the scanner never canonicalizes) — the first component being the file's
Structure Catalog entry. -/
theorem c8_output_shape_amended (root excl : List String) (files : List PyFile)
    (out : Catalog) (h : collect_project_structure root excl files = .ok out) :
    catalogOK root files out :=
  collectGo_shape root excl files files [] out (fun _ hg => hg)
    (fun folder inner hmem => by simp at hmem) h

/-- C8 witness: the shape property at a concrete one-file scan under an
absolute root. -/
theorem c8_output_shape_amended_witness :
    catalogOK ["", "proj"] [⟨["pkg"], "a.py", .ok []⟩]
      [("pkg", [("a.py", (⟨[], []⟩, ["", "proj", "pkg", "a.py"]))])] :=
  c8_output_shape_amended ["", "proj"] [] [⟨["pkg"], "a.py", .ok []⟩]
    [("pkg", [("a.py", (⟨[], []⟩, ["", "proj", "pkg", "a.py"]))])] rfl

/-! ## UI-key uniqueness -/

theorem makeSafeKeyLoop_spec (base : String) (used : List String) :
    ∀ (draws : List String) (key k : String) (u : List String),
      makeSafeKeyLoop base used key draws = some (k, u) →
      k ∉ used ∧ u = k :: used
  | [], key, k, u => by
    rw [makeSafeKeyLoop]
    by_cases hk : key ∈ used
    · rw [if_pos hk]
      intro h
      cases h
    · rw [if_neg hk]
      intro h
      simp only [Option.some.injEq, Prod.mk.injEq] at h
      obtain ⟨rfl, rfl⟩ := h
      exact ⟨hk, rfl⟩
  | d :: rest, key, k, u => by
    rw [makeSafeKeyLoop]
    by_cases hk : key ∈ used
    · rw [if_pos hk]
      exact makeSafeKeyLoop_spec base used rest (base ++ "_" ++ d) k u
    · rw [if_neg hk]
      intro h
      simp only [Option.some.injEq, Prod.mk.injEq] at h
      obtain ⟨rfl, rfl⟩ := h
      exact ⟨hk, rfl⟩

theorem runSafeKeyCalls_spec :
    ∀ (calls : List (List String × List String)) (used ks u : List String),
      runSafeKeyCalls used calls = some (ks, u) →
      ks.Nodup ∧ (∀ x ∈ ks, x ∈ u) ∧ (∀ x ∈ used, x ∈ u) ∧ (∀ x ∈ ks, x ∉ used)
  | [], used, ks, u => by
    intro h
    rw [runSafeKeyCalls] at h
    simp only [Option.some.injEq, Prod.mk.injEq] at h
    obtain ⟨rfl, rfl⟩ := h
    exact ⟨List.nodup_nil, by simp, fun x hx => hx, by simp⟩
  | (args, draws) :: calls, used, ks, u => by
    intro h
    rw [runSafeKeyCalls] at h
    cases hmk : make_safe_key used args draws with
    | none => rw [hmk] at h; cases h
    | some ku =>
      obtain ⟨k, used'⟩ := ku
      rw [hmk] at h
      dsimp only at h
      obtain ⟨hknot, hused'⟩ := makeSafeKeyLoop_spec (makeBase args) used draws
        (makeBase args) k used' hmk
      cases hrun : runSafeKeyCalls used' calls with
      | none => rw [hrun] at h; cases h
      | some ksu =>
        obtain ⟨ks', u'⟩ := ksu
        rw [hrun] at h
        dsimp only at h
        simp only [Option.some.injEq, Prod.mk.injEq] at h
        obtain ⟨rfl, rfl⟩ := h
        obtain ⟨hnd, hksu, husedu, hnotused⟩ :=
          runSafeKeyCalls_spec calls used' ks' u' hrun
        subst hused'
        refine ⟨List.nodup_cons.mpr ⟨?_, hnd⟩, ?_, ?_, ?_⟩
        · intro hkks
          exact (hnotused k hkks) (List.mem_cons_self _ _)
        · intro x hx
          rcases List.mem_cons.mp hx with hx | hx
          · exact hx ▸ husedu k (List.mem_cons_self _ _)
          · exact hksu x hx
        · intro x hx
          exact husedu x (List.mem_cons_of_mem _ hx)
        · intro x hx
          rcases List.mem_cons.mp hx with hx | hx
          · exact hx ▸ hknot
          · intro hxused
            exact (hnotused x hx) (List.mem_cons_of_mem _ hxused)

/-- C9.  UI-key uniqueness: a successful `make_safe_key` call returns a
key absent from the registry at the moment it is chosen and registers it
before returning, and the registry only ever grows; consequently, across
any sequence of calls within one process lifetime (one `used_keys`
registry), no two calls return the same key. -/
theorem c9_ui_key_uniqueness :
    (∀ (used args draws : List String) (k : String) (u : List String),
      make_safe_key used args draws = some (k, u) →
      k ∉ used ∧ k ∈ u ∧ ∀ x ∈ used, x ∈ u)
    ∧ ∀ (calls : List (List String × List String)) (used ks u : List String),
      runSafeKeyCalls used calls = some (ks, u) →
      ks.Nodup ∧ (∀ x ∈ ks, x ∈ u) ∧ ∀ x ∈ used, x ∈ u := by
  constructor
  · intro used args draws k u h
    obtain ⟨h1, h2⟩ := makeSafeKeyLoop_spec (makeBase args) used draws
      (makeBase args) k u h
    subst h2
    exact ⟨h1, List.mem_cons_self _ _, fun x hx => List.mem_cons_of_mem _ hx⟩
  · intro calls used ks u h
    obtain ⟨h1, h2, h3, _⟩ := runSafeKeyCalls_spec calls used ks u h
    exact ⟨h1, h2, h3⟩

/-- C9 witness: a concrete call and a concrete two-call sequence (the
second colliding on the base and disambiguated by a suffix draw). -/
theorem c9_ui_key_uniqueness_witness :
    (make_safe_key [] ["a"] [] = some ("memo_a", ["memo_a"]) ∧
      "memo_a" ∉ ([] : List String) ∧ "memo_a" ∈ ["memo_a"] ∧
      ∀ x ∈ ([] : List String), x ∈ ["memo_a"]) ∧
    (runSafeKeyCalls [] [(["a"], []), (["a"], ["beef1234"])]
        = some (["memo_a", "memo_a_beef1234"], ["memo_a_beef1234", "memo_a"]) ∧
      (["memo_a", "memo_a_beef1234"] : List String).Nodup) :=
  ⟨⟨by decide, c9_ui_key_uniqueness.1 [] ["a"] [] "memo_a" ["memo_a"] (by decide)⟩,
   ⟨by decide,
    (c9_ui_key_uniqueness.2 [(["a"], []), (["a"], ["beef1234"])] []
      ["memo_a", "memo_a_beef1234"] ["memo_a_beef1234", "memo_a"] (by decide)).1⟩⟩
